import Mathlib

/-!
Shallow embedding of `main.py` (FourExchangeActiveStocksFetcher): a pipeline
that filters exchange listings, fetches daily OHLCV bars with rate-limit
retries, scores each bar, and ranks the most active stocks.  External I/O
(HTTP transport, console) is modelled by explicit response values and an
event trace; Python floats are modelled by exact rationals; Python string
comparison is Lean's lexicographic `String` order.
-/

namespace MarketDashboard

/-- One raw CSV row of the LISTING_STATUS response, fields as strings
(as `csv.DictReader` yields them). -/
structure RawRow where
  symbol : String
  name : String
  exchange : String
  assetType : String
  status : String
  ipoDate : String
deriving DecidableEq, Repr

/-- The `stock_info` dict built by `get_all_stocks_from_target_exchanges`. -/
structure StockRow where
  symbol : String
  name : String
  exchange : String
  ipoDate : String
deriving DecidableEq, Repr

/-- One raw OHLCV record from the `Time Series (Daily)` JSON object; a field
is `none` when it is missing or its text does not parse as a number
(Python `float`/`int` raising `ValueError`/`KeyError`). -/
structure RawBar where
  rawOpen : Option ℚ
  rawHigh : Option ℚ
  rawLow : Option ℚ
  rawClose : Option ℚ
  rawVolume : Option ℤ
deriving DecidableEq, Repr

/-- The dict returned by `get_daily_data` on success. -/
structure Bar where
  symbol : String
  date : String
  opn : ℚ
  hi : ℚ
  lo : ℚ
  cls : ℚ
  vol : ℤ
deriving DecidableEq, Repr

/-- A `Bar` after `process_stocks_in_batches` adds `exchange` and `name`. -/
structure EnrichedBar where
  bar : Bar
  exchange : String
  name : String
deriving DecidableEq, Repr

/-- The dict returned by `calculate_activity_metrics`. -/
structure Metrics where
  price_change : ℚ
  price_change_percent : ℚ
  volatility_percent : ℚ
  activity_score : ℚ
deriving DecidableEq, Repr

/-- The `enhanced_stock` dict assembled in `get_most_active_stocks_for_date`. -/
structure RankedStock where
  symbol : String
  name : String
  exchange : String
  date : String
  opn : ℚ
  hi : ℚ
  lo : ℚ
  cls : ℚ
  vol : ℤ
  price_change : ℚ
  price_change_percent : ℚ
  volatility_percent : ℚ
  activity_score : ℚ
deriving DecidableEq, Repr

/-- One response of the quote endpoint to one request, as `get_daily_data`
distinguishes them: an exception during the request (`transportError`), a
JSON body with an `Error Message` key, a `Note` (soft rate limit), or a
payload whose `Time Series (Daily)` object is the given association list
(dict: keys are unique). -/
inductive QuoteResponse
  | transportError
  | errorMessage
  | note
  | payload (ts : List (String × RawBar))
deriving DecidableEq, Repr

/-- The single listing request's outcome. -/
inductive ListingResponse
  | transportError
  | rows (rs : List RawRow)
deriving DecidableEq, Repr

/-- Externally visible timed events: issuing a quote request and sleeping a
number of time units (`time.sleep`). -/
inductive Event
  | request (symbol : String)
  | sleep (units : ℕ)
deriving DecidableEq, Repr

/-- `self.target_exchanges`. -/
def target_exchanges : List String := ["NASDAQ", "NYSE", "ASX", "HKSE"]

/-- Python `str.lower()`: lowercase every character. -/
def strLower (s : String) : String := ⟨s.data.map Char.toLower⟩

/-- Python `str.strip()`: drop leading and trailing whitespace. -/
def strTrim (s : String) : String :=
  ⟨((s.data.dropWhile Char.isWhitespace).reverse.dropWhile Char.isWhitespace).reverse⟩

/-- The filter condition of `get_all_stocks_from_target_exchanges` (line 44):
`status == 'active' and exchange in self.target_exchanges and
asset_type == 'Stock'`, where `status = row['status'].lower().strip()`,
`exchange = row['exchange'].strip()`, `asset_type = row['assetType'].strip()`. -/
def includeRow (row : RawRow) : Bool :=
  strTrim (strLower row.status) == "active" &&
    target_exchanges.contains (strTrim row.exchange) &&
    strTrim row.assetType == "Stock"

/-- `get_all_stocks_from_target_exchanges`: on transport failure the
exception handler returns `[]`; otherwise keep the rows passing the filter,
building each `stock_info`. -/
def get_all_stocks_from_target_exchanges : ListingResponse → List StockRow
  | .transportError => []
  | .rows rs =>
      rs.filterMap fun row =>
        if includeRow row then
          some ⟨strTrim row.symbol, strTrim row.name, strTrim row.exchange,
            strTrim row.ipoDate⟩
        else none

/-- Dict lookup `time_series[d]` / membership `d in time_series`. -/
def tsLookup (d : String) : List (String × RawBar) → Option RawBar
  | [] => none
  | kv :: rest => if kv.1 = d then some kv.2 else tsLookup d rest

/-- Lines 100-113 of `get_daily_data`: exact date hit, else
`sorted([d for d in time_series.keys() if d <= target_date], reverse=True)`
and take the first, yielding `(actual_date, bar)`; `none` when no date
qualifies. -/
def resolve_trading_day (target : String) (ts : List (String × RawBar)) :
    Option (String × RawBar) :=
  match tsLookup target ts with
  | some bar => some (target, bar)
  | none =>
      let available :=
        List.insertionSort (fun a b : String => b ≤ a)
          ((ts.map Prod.fst).filter fun d => d ≤ target)
      match available with
      | [] => none
      | d :: _ => (tsLookup d ts).map fun bar => (d, bar)

/-- Lines 116-128 of `get_daily_data`: convert the five string fields with
`float`/`int`; any parse failure yields `None`. -/
def parse_bar (symbol date : String) (rb : RawBar) : Option Bar :=
  match rb.rawOpen, rb.rawHigh, rb.rawLow, rb.rawClose, rb.rawVolume with
  | some o, some h, some l, some c, some v => some ⟨symbol, date, o, h, l, c, v⟩
  | _, _, _, _, _ => none

/-- `get_daily_data(symbol, target_date)` driven by the list of responses the
quote endpoint gives to its successive requests (the recursion on a `Note`
response is the `time.sleep(60)` + retry of lines 91-94).  Returns the event
trace (requests and sleeps) together with the returned value.  An exhausted
response list stands for a request that can never complete. -/
def get_daily_data (symbol target : String) :
    List QuoteResponse → List Event × Option Bar
  | [] => ([Event.request symbol], none)
  | .transportError :: _ => ([Event.request symbol], none)
  | .errorMessage :: _ => ([Event.request symbol], none)
  | .note :: rest =>
      let r := get_daily_data symbol target rest
      (Event.request symbol :: Event.sleep 60 :: r.1, r.2)
  | .payload ts :: _ =>
      if ts.isEmpty then ([Event.request symbol], none)
      else
        ([Event.request symbol],
          (resolve_trading_day target ts).bind fun db => parse_bar symbol db.1 db.2)

/-- The inner loop of `process_stocks_in_batches` (lines 182-194) over one
batch: fetch each symbol, keep results with positive volume enriched with
exchange and name, and `time.sleep(12)` after every symbol. -/
def process_symbols (env : String → List QuoteResponse) (target : String) :
    List StockRow → List Event × List EnrichedBar
  | [] => ([], [])
  | s :: rest =>
      let f := get_daily_data s.symbol target (env s.symbol)
      let r := process_symbols env target rest
      let here : List EnrichedBar :=
        match f.2 with
        | some b => if 0 < b.vol then [⟨b, s.exchange, s.name⟩] else []
        | none => []
      (f.1 ++ [Event.sleep 12] ++ r.1, here ++ r.2)

/-- The slicing `stocks[i:i+batch_size]` of the outer loop: the list split
into consecutive chunks.  For `bs ≥ 1` this is exactly the Python slices;
recursion is structural (each chunk takes at least the head). -/
def chunks (bs : ℕ) : List StockRow → List (List StockRow)
  | [] => []
  | s :: rest => (s :: rest.take (bs - 1)) :: chunks bs (rest.drop (bs - 1))
termination_by l => l.length
decreasing_by
  simp only [List.length_drop, List.length_cons]
  omega

/-- The outer loop of `process_stocks_in_batches`: process each batch and
`all_stock_data.extend(batch_data)`. -/
def process_chunks (env : String → List QuoteResponse) (target : String) :
    List (List StockRow) → List Event × List EnrichedBar
  | [] => ([], [])
  | b :: bss =>
      let d := process_symbols env target b
      let r := process_chunks env target bss
      (d.1 ++ r.1, d.2 ++ r.2)

/-- `process_stocks_in_batches(stocks, target_date, batch_size)`. -/
def process_stocks_in_batches (env : String → List QuoteResponse)
    (target : String) (stocks : List StockRow) (batch_size : ℕ) :
    List Event × List EnrichedBar :=
  process_chunks env target (chunks batch_size stocks)

/-- Python `round(q, 2)` on the exact value: round to 2 decimal places
(the tie is immaterial to every property below; `round` rounds half up). -/
def round2 (q : ℚ) : ℚ := (round (q * 100) : ℚ) / 100

/-- `calculate_activity_metrics(stock_data)`, lines 136-163, over exact
rationals. -/
def calculate_activity_metrics (b : Bar) : Metrics :=
  let price_change := b.cls - b.opn
  let price_change_percent := if b.opn ≠ 0 then price_change / b.opn * 100 else 0
  let intraday_range := b.hi - b.lo
  let volatility_percent := if b.opn ≠ 0 then intraday_range / b.opn * 100 else 0
  let volume_millions := (b.vol : ℚ) / 1000000
  let abs_price_movement := |price_change_percent|
  let activity_score :=
    volume_millions * 1 + abs_price_movement * 8 + volatility_percent * 4
  { price_change := round2 price_change
    price_change_percent := round2 price_change_percent
    volatility_percent := round2 volatility_percent
    activity_score := round2 activity_score }

/-- The exact (pre-rounding) price-change percentage of a bar. -/
def pcpOf (b : Bar) : ℚ := if b.opn ≠ 0 then (b.cls - b.opn) / b.opn * 100 else 0

/-- The exact (pre-rounding) intraday volatility percentage of a bar. -/
def vpOf (b : Bar) : ℚ := if b.opn ≠ 0 then (b.hi - b.lo) / b.opn * 100 else 0

/-- Building `enhanced_stock` (lines 251-269): the bar's fields plus the
computed metrics. -/
def enhance_stock (eb : EnrichedBar) : RankedStock :=
  let m := calculate_activity_metrics eb.bar
  { symbol := eb.bar.symbol
    name := eb.name
    exchange := eb.exchange
    date := eb.bar.date
    opn := eb.bar.opn
    hi := eb.bar.hi
    lo := eb.bar.lo
    cls := eb.bar.cls
    vol := eb.bar.vol
    price_change := m.price_change
    price_change_percent := m.price_change_percent
    volatility_percent := m.volatility_percent
    activity_score := m.activity_score }

/-- The ordering of `enhanced_stocks.sort(key=lambda x: x['activity_score'],
reverse=True)`: `a` may come before `b` exactly when `a`'s score is ≥ `b`'s.
Python's sort is stable; a stable sort with this total preorder is unique,
and `List.insertionSort` below realizes it. -/
def scoreGE (a b : RankedStock) : Prop := b.activity_score ≤ a.activity_score

instance : DecidableRel scoreGE := fun a b =>
  inferInstanceAs (Decidable (b.activity_score ≤ a.activity_score))

instance : IsTotal RankedStock scoreGE :=
  ⟨fun a b => le_total b.activity_score a.activity_score⟩

instance : IsTrans RankedStock scoreGE :=
  ⟨fun _ _ _ h h' => le_trans h' h⟩

/-- Lines 271-275: stable sort descending by activity score, truncate to the
first `count`. -/
def rank_stocks (count : ℕ) (l : List RankedStock) : List RankedStock :=
  (List.insertionSort scoreGE l).take count

/-- `get_most_active_stocks_for_date(target_date, count)`, lines 210-275:
fetch the listing (abort on empty), ask for confirmation, fetch all bars
with the default batch size 100 (abort on empty), score, sort, truncate. -/
def get_most_active_stocks_for_date (listing : ListingResponse)
    (env : String → List QuoteResponse) (confirm : Bool)
    (target : String) (count : ℕ) : List RankedStock :=
  let all_stocks := get_all_stocks_from_target_exchanges listing
  if all_stocks.isEmpty then []
  else if !confirm then []
  else
    let stock_data_list := (process_stocks_in_batches env target all_stocks 100).2
    if stock_data_list.isEmpty then []
    else rank_stocks count (stock_data_list.map enhance_stock)

/-! Concrete inputs used to exercise the definitions. -/

/-- A raw record whose five fields are all absent/unparsable. -/
def rbNone : RawBar := ⟨none, none, none, none, none⟩

/-- A raw record parsing to open 10, high 11, low 9, close 10, volume 5. -/
def rbGood : RawBar := ⟨some 10, some 11, some 9, some 10, some 5⟩

/-- Like `rbGood` but with volume 0. -/
def rbZero : RawBar := ⟨some 10, some 11, some 9, some 10, some 0⟩

/-- A listing row that passes the filter. -/
def wRow : RawRow := ⟨"AAA", "Acme", "NASDAQ", "Stock", "Active", "2000-01-01"⟩

/-- A listing row with a trailing space inside its status field. -/
def cexRow : RawRow := ⟨"BBB", "Bravo", "NASDAQ", "Stock", "Active ", "2000-01-01"⟩

/-- The instrument built from `wRow`. -/
def wStock : StockRow := ⟨"AAA", "Acme", "NASDAQ", "2000-01-01"⟩

/-- The bar `rbGood` parses to at date 2024-01-10 for symbol AAA. -/
def wBar : Bar := ⟨"AAA", "2024-01-10", 10, 11, 9, 10, 5⟩

/-- A quote environment: every symbol answers with one 2024-01-10 record. -/
def wEnv : String → List QuoteResponse := fun _ => [.payload [("2024-01-10", rbGood)]]

/-- A quote environment whose single record has zero volume. -/
def zEnv : String → List QuoteResponse := fun _ => [.payload [("2024-01-10", rbZero)]]

/-- A quote environment on which every fetch hits a hard data error. -/
def fEnv : String → List QuoteResponse := fun _ => [.errorMessage]

/-- A bar whose price change 0.001 vanishes under 2-decimal rounding. -/
def cexBar : Bar := ⟨"S", "2024-01-10", 1, 2, 1, 1 + 1 / 1000, 5⟩

/-- A ranked-stock candidate carrying only a symbol and an activity score. -/
def mkRS (symbol : String) (score : ℚ) : RankedStock :=
  ⟨symbol, "", "", "", 0, 0, 0, 0, 0, 0, 0, 0, score⟩

/-- The spec's end-to-end ranking example: scores 50.2, 75, 75 in arrival
order A, B, C. -/
def demoStocks : List RankedStock :=
  [mkRS "A" (502 / 10), mkRS "B" 75, mkRS "C" 75]

/-- Unit-price bar with zero volume: pcp = 0, vp = 0. -/
def bUnit : Bar := ⟨"A", "d", 1, 1, 1, 1, 0⟩

/-- `bUnit` with volume 2. -/
def bVol : Bar := ⟨"A", "d", 1, 1, 1, 1, 2⟩

/-- `bUnit` with close 2: pcp = 100, vp = 0. -/
def bCls : Bar := ⟨"A", "d", 1, 1, 1, 2, 0⟩

/-- `bUnit` with high 2: pcp = 0, vp = 100. -/
def bHi : Bar := ⟨"A", "d", 1, 2, 1, 1, 0⟩

/-- The enriched bar the pipeline produces from `wStock` under `wEnv`. -/
def ebW : EnrichedBar := ⟨wBar, "NASDAQ", "Acme"⟩

/-- `wBar` with volume zeroed. -/
def zBar : Bar := ⟨"AAA", "2024-01-10", 10, 11, 9, 10, 0⟩

/-- The spec's resolver example: three consecutive available dates. -/
def wSeries : List (String × RawBar) :=
  [("2024-01-10", rbNone), ("2024-01-11", rbNone), ("2024-01-12", rbNone)]

/-! ## Lemmas and claim theorems -/

theorem round2_mono {q r : ℚ} (h : q ≤ r) : round2 q ≤ round2 r := by
  unfold round2
  have hr : round (q * 100) ≤ round (r * 100) := by
    rw [round_eq, round_eq]
    exact Int.floor_mono (by linarith)
  have hc : ((round (q * 100) : ℤ) : ℚ) ≤ ((round (r * 100) : ℤ) : ℚ) :=
    Int.cast_le.mpr hr
  linarith

theorem activity_score_eq (b : Bar) :
    (calculate_activity_metrics b).activity_score
      = round2 ((b.vol : ℚ) / 1000000 * 1 + |pcpOf b| * 8 + vpOf b * 4) := rfl

/-- Claim C1, counterexample: the result's `price_change` is rounded, so at
open 1, close 1.001 it is 0, not close − open. -/
theorem C1_price_change_rounded :
    (calculate_activity_metrics cexBar).price_change ≠ cexBar.cls - cexBar.opn := by
  norm_num [calculate_activity_metrics, round2, round_eq, cexBar]

/-- Claim C1 (amended: the result's `price_change` is likewise rounded to 2
decimal places): for every bar, the computed metrics are the rounded values
of priceChange = close−open, priceChangePercent = priceChange/open×100 (0
when open = 0), volatilityPercent = (high−low)/open×100 (0 when open = 0),
and activityScore = volume/1,000,000×1 + |priceChangePercent|×8 +
volatilityPercent×4 (from the unrounded percentages). -/
theorem C1_activity_metrics (b : Bar) :
    (calculate_activity_metrics b).price_change = round2 (b.cls - b.opn) ∧
    (calculate_activity_metrics b).price_change_percent
      = round2 (if b.opn = 0 then 0 else (b.cls - b.opn) / b.opn * 100) ∧
    (calculate_activity_metrics b).volatility_percent
      = round2 (if b.opn = 0 then 0 else (b.hi - b.lo) / b.opn * 100) ∧
    (calculate_activity_metrics b).activity_score
      = round2 ((b.vol : ℚ) / 1000000 * 1
          + |if b.opn = 0 then 0 else (b.cls - b.opn) / b.opn * 100| * 8
          + (if b.opn = 0 then 0 else (b.hi - b.lo) / b.opn * 100) * 4) := by
  by_cases h : b.opn = 0 <;> simp [calculate_activity_metrics, h]

/-- Claim C5, counterexample: a row whose status has trailing whitespace is
included by the filter although its status is not case-insensitively equal
to "active" (the code also trims whitespace before comparing). -/
theorem C5_status_not_trimmed :
    includeRow cexRow = true ∧ strLower cexRow.status ≠ "active" := by
  constructor
  · decide
  · decide

/-- Claim C5 (amended: fields are compared after trimming surrounding
whitespace): a raw listing row is included iff its whitespace-trimmed,
lowercased status equals "active", its trimmed exchange is one of NASDAQ,
NYSE, ASX, HKSE, and its trimmed assetType equals "Stock" exactly. -/
theorem C5_listing_filter (row : RawRow) :
    includeRow row = true ↔
      strTrim (strLower row.status) = "active" ∧
        strTrim row.exchange ∈ target_exchanges ∧
        strTrim row.assetType = "Stock" := by
  simp [includeRow, List.elem_iff, and_assoc]

/-- Claim C8: the rounded activity score is monotonically non-decreasing in
volume, in |priceChangePercent|, and in volatilityPercent, the other two
held fixed. -/
theorem C8_score_monotone (b1 b2 : Bar) :
    (b1.vol ≤ b2.vol → |pcpOf b1| = |pcpOf b2| → vpOf b1 = vpOf b2 →
      (calculate_activity_metrics b1).activity_score
        ≤ (calculate_activity_metrics b2).activity_score) ∧
    (b1.vol = b2.vol → |pcpOf b1| ≤ |pcpOf b2| → vpOf b1 = vpOf b2 →
      (calculate_activity_metrics b1).activity_score
        ≤ (calculate_activity_metrics b2).activity_score) ∧
    (b1.vol = b2.vol → |pcpOf b1| = |pcpOf b2| → vpOf b1 ≤ vpOf b2 →
      (calculate_activity_metrics b1).activity_score
        ≤ (calculate_activity_metrics b2).activity_score) := by
  refine ⟨fun hv hp hq => ?_, fun hv hp hq => ?_, fun hv hp hq => ?_⟩ <;>
    rw [activity_score_eq, activity_score_eq] <;> apply round2_mono
  · rw [hp, hq]
    have hc : ((b1.vol : ℚ)) ≤ (b2.vol : ℚ) := Int.cast_le.mpr hv
    linarith
  · rw [hv, hq]
    linarith
  · rw [hv, hp]
    linarith

/-- Witness for C8: concrete bars differing in exactly one of the three
quantities. -/
theorem C8_score_monotone_witness :
    (calculate_activity_metrics bUnit).activity_score
        ≤ (calculate_activity_metrics bVol).activity_score ∧
    (calculate_activity_metrics bUnit).activity_score
        ≤ (calculate_activity_metrics bCls).activity_score ∧
    (calculate_activity_metrics bUnit).activity_score
        ≤ (calculate_activity_metrics bHi).activity_score :=
  ⟨(C8_score_monotone bUnit bVol).1 (by norm_num [bUnit, bVol])
      (by norm_num [pcpOf, bUnit, bVol]) (by norm_num [vpOf, bUnit, bVol]),
    (C8_score_monotone bUnit bCls).2.1 (by norm_num [bUnit, bCls])
      (by norm_num [pcpOf, bUnit, bCls]) (by norm_num [vpOf, bUnit, bCls]),
    (C8_score_monotone bUnit bHi).2.2 (by norm_num [bUnit, bHi])
      (by norm_num [pcpOf, bUnit, bHi]) (by norm_num [vpOf, bUnit, bHi])⟩

theorem get_daily_data_replicate_note (symbol target : String) (n : ℕ)
    (rest : List QuoteResponse) :
    get_daily_data symbol target (List.replicate n QuoteResponse.note ++ rest)
      = ((List.replicate n [Event.request symbol, Event.sleep 60]).flatten
          ++ (get_daily_data symbol target rest).1,
        (get_daily_data symbol target rest).2) := by
  induction n with
  | zero => simp
  | succ m ih => simp [List.replicate_succ, get_daily_data, ih]

/-- Claim C4: a rate-limit note makes the fetcher sleep 60 units and
re-issue the same request, any number `n` of times in a row (the value is
whatever the retries eventually produce), and the per-symbol loop sleeps 12
units after every symbol before the next symbol's request. -/
theorem C4_rate_limit_pacing (symbol target : String) (n : ℕ)
    (rest : List QuoteResponse) :
    (get_daily_data symbol target (List.replicate n QuoteResponse.note ++ rest)).1
      = (List.replicate n [Event.request symbol, Event.sleep 60]).flatten
        ++ (get_daily_data symbol target rest).1 ∧
    (get_daily_data symbol target (List.replicate n QuoteResponse.note ++ rest)).2
      = (get_daily_data symbol target rest).2 ∧
    ∀ (env : String → List QuoteResponse) (stocks : List StockRow),
      (process_symbols env target stocks).1
        = (stocks.map fun s =>
            (get_daily_data s.symbol target (env s.symbol)).1
              ++ [Event.sleep 12]).flatten := by
  refine ⟨?_, ?_, ?_⟩
  · rw [get_daily_data_replicate_note]
  · rw [get_daily_data_replicate_note]
  · intro env stocks
    induction stocks with
    | nil => rfl
    | cons s rest ih => simp [process_symbols, ih]

theorem process_symbols_append (env : String → List QuoteResponse)
    (target : String) (l1 l2 : List StockRow) :
    process_symbols env target (l1 ++ l2)
      = ((process_symbols env target l1).1 ++ (process_symbols env target l2).1,
        (process_symbols env target l1).2 ++ (process_symbols env target l2).2) := by
  induction l1 with
  | nil => simp [process_symbols]
  | cons s t ih => simp [process_symbols, ih]

theorem chunks_flatten (bs : ℕ) : ∀ l : List StockRow, (chunks bs l).flatten = l
  | [] => by simp [chunks]
  | s :: rest => by
      have ih := chunks_flatten bs (rest.drop (bs - 1))
      simp [chunks, ih, List.take_append_drop]
termination_by l => l.length
decreasing_by
  simp only [List.length_drop, List.length_cons]
  omega

theorem process_chunks_eq_symbols (env : String → List QuoteResponse)
    (target : String) :
    ∀ cs : List (List StockRow),
      process_chunks env target cs = process_symbols env target cs.flatten
  | [] => rfl
  | b :: bss => by
      simp [process_chunks, process_symbols_append,
        process_chunks_eq_symbols env target bss]

theorem batches_eq_symbols (env : String → List QuoteResponse)
    (target : String) (stocks : List StockRow) (bs : ℕ) :
    process_stocks_in_batches env target stocks bs
      = process_symbols env target stocks := by
  unfold process_stocks_in_batches
  rw [process_chunks_eq_symbols, chunks_flatten]

/-- Claim C7: for any two batch sizes ≥ 1, the batch fetcher returns the
same sequence of bars — batching never affects the returned results. -/
theorem C7_batch_size_irrelevant (env : String → List QuoteResponse)
    (target : String) (stocks : List StockRow) (b1 b2 : ℕ)
    (h1 : 1 ≤ b1) (h2 : 1 ≤ b2) :
    (process_stocks_in_batches env target stocks b1).2
      = (process_stocks_in_batches env target stocks b2).2 := by
  rw [batches_eq_symbols, batches_eq_symbols]

/-- Witness for C7: batch sizes 1 and 3 on a concrete run. -/
theorem C7_batch_size_irrelevant_witness :
    (process_stocks_in_batches wEnv "2024-01-10" [wStock] 1).2
      = (process_stocks_in_batches wEnv "2024-01-10" [wStock] 3).2 :=
  C7_batch_size_irrelevant wEnv "2024-01-10" [wStock] 1 3 (by decide) (by decide)

theorem mem_process_symbols_pos_vol (env : String → List QuoteResponse)
    (target : String) :
    ∀ (stocks : List StockRow) (eb : EnrichedBar),
      eb ∈ (process_symbols env target stocks).2 → 0 < eb.bar.vol := by
  intro stocks
  induction stocks with
  | nil => intro eb h; simp [process_symbols] at h
  | cons s rest ih =>
      intro eb h
      cases hgd : (get_daily_data s.symbol target (env s.symbol)).2 with
      | none =>
          simp [process_symbols, hgd] at h
          exact ih eb h
      | some b =>
          by_cases hv : 0 < b.vol
          · simp [process_symbols, hgd, hv] at h
            rcases h with h | h
            · subst h; exact hv
            · exact ih eb h
          · simp [process_symbols, hgd, hv] at h
            exact ih eb h

/-- Claim C6: every bar in the batch fetcher's output has volume > 0, and a
resolved bar with volume 0 never appears in the output. -/
theorem C6_zero_volume_excluded (env : String → List QuoteResponse)
    (target : String) (stocks : List StockRow) (bs : ℕ) :
    (∀ eb ∈ (process_stocks_in_batches env target stocks bs).2, 0 < eb.bar.vol) ∧
    ∀ b : Bar, b.vol = 0 →
      ∀ eb ∈ (process_stocks_in_batches env target stocks bs).2, eb.bar ≠ b := by
  constructor
  · intro eb h
    rw [batches_eq_symbols] at h
    exact mem_process_symbols_pos_vol env target stocks eb h
  · intro b hb eb h hbe
    rw [batches_eq_symbols] at h
    have h0 := mem_process_symbols_pos_vol env target stocks eb h
    rw [hbe, hb] at h0
    exact lt_irrefl 0 h0

/-- Witness for C6: the concrete run under `wEnv` yields `ebW` (volume 5),
and the zero-volume variant of its bar is never an output bar. -/
theorem C6_zero_volume_excluded_witness :
    0 < ebW.bar.vol ∧ ebW.bar ≠ zBar := by
  have hmem : ebW ∈ (process_stocks_in_batches wEnv "2024-01-10" [wStock] 100).2 := by
    rw [batches_eq_symbols]
    simp [process_symbols, get_daily_data, wEnv, wStock, resolve_trading_day,
      tsLookup, parse_bar, rbGood, ebW, wBar]
  exact ⟨(C6_zero_volume_excluded wEnv "2024-01-10" [wStock] 100).1 ebW hmem,
    (C6_zero_volume_excluded wEnv "2024-01-10" [wStock] 100).2 zBar rfl ebW hmem⟩

/-- Claim C9: a listing-level transport failure aborts the run with an empty
result, while each kind of per-symbol quote failure (transport error, hard
data error, unresolvable date, malformed numeric fields) yields no result
for that symbol and leaves the processing of the remaining symbols
unchanged. -/
theorem C9_failure_policy (env : String → List QuoteResponse) (confirm : Bool)
    (target : String) (count : ℕ) :
    get_most_active_stocks_for_date ListingResponse.transportError env confirm
        target count = [] ∧
    (∀ (symbol : String) (rest : List QuoteResponse),
      (get_daily_data symbol target (QuoteResponse.transportError :: rest)).2
        = none) ∧
    (∀ (symbol : String) (rest : List QuoteResponse),
      (get_daily_data symbol target (QuoteResponse.errorMessage :: rest)).2
        = none) ∧
    (∀ (symbol : String) (rest : List QuoteResponse) (ts : List (String × RawBar)),
      resolve_trading_day target ts = none →
      (get_daily_data symbol target (QuoteResponse.payload ts :: rest)).2 = none) ∧
    (∀ (symbol : String) (rest : List QuoteResponse) (ts : List (String × RawBar))
        (d : String) (rb : RawBar),
      resolve_trading_day target ts = some (d, rb) → parse_bar symbol d rb = none →
      (get_daily_data symbol target (QuoteResponse.payload ts :: rest)).2 = none) ∧
    ∀ (s : StockRow) (rest : List StockRow),
      (get_daily_data s.symbol target (env s.symbol)).2 = none →
      (process_symbols env target (s :: rest)).2
        = (process_symbols env target rest).2 := by
  refine ⟨rfl, fun _ _ => rfl, fun _ _ => rfl, ?_, ?_, ?_⟩
  · intro symbol rest ts hres
    by_cases he : ts.isEmpty <;> simp [get_daily_data, he, hres]
  · intro symbol rest ts d rb hres hparse
    by_cases he : ts.isEmpty <;> simp [get_daily_data, he, hres, hparse]
  · intro s rest h
    simp [process_symbols, h]

/-- Witness for C9: concrete failures of every kind. -/
theorem C9_failure_policy_witness :
    get_most_active_stocks_for_date ListingResponse.transportError fEnv true
        "2024-01-10" 5 = [] ∧
    (get_daily_data "AAA" "2024-01-10" [QuoteResponse.transportError]).2 = none ∧
    (get_daily_data "AAA" "2024-01-10" [QuoteResponse.errorMessage]).2 = none ∧
    (get_daily_data "AAA" "2024-01-10" [QuoteResponse.payload []]).2 = none ∧
    (get_daily_data "AAA" "2024-01-10"
        [QuoteResponse.payload [("2024-01-10", rbNone)]]).2 = none ∧
    (process_symbols fEnv "2024-01-10" [wStock]).2
      = (process_symbols fEnv "2024-01-10" []).2 :=
  ⟨(C9_failure_policy fEnv true "2024-01-10" 5).1,
    (C9_failure_policy fEnv true "2024-01-10" 5).2.1 "AAA" [],
    (C9_failure_policy fEnv true "2024-01-10" 5).2.2.1 "AAA" [],
    (C9_failure_policy fEnv true "2024-01-10" 5).2.2.2.1 "AAA" [] [] rfl,
    (C9_failure_policy fEnv true "2024-01-10" 5).2.2.2.2.1 "AAA" []
      [("2024-01-10", rbNone)] "2024-01-10" rbNone
      (by simp [resolve_trading_day, tsLookup]) rfl,
    (C9_failure_policy fEnv true "2024-01-10" 5).2.2.2.2.2 wStock [] rfl⟩

theorem filter_orderedInsert_tied (v : ℚ) (a : RankedStock)
    (l : List RankedStock) (ha : a.activity_score = v) :
    (List.orderedInsert scoreGE a l).filter (fun x => x.activity_score = v)
      = a :: l.filter fun x => x.activity_score = v := by
  have hnil : (l.takeWhile fun b => ¬ scoreGE a b).filter
      (fun x => x.activity_score = v) = [] := by
    rw [List.filter_eq_nil_iff]
    intro x hx
    have hpx := List.mem_takeWhile_imp hx
    simp only [decide_eq_true_eq] at hpx
    have hlt : a.activity_score < x.activity_score := not_le.mp hpx
    simp only [decide_eq_true_eq]
    intro hxv
    rw [hxv, ← ha] at hlt
    exact lt_irrefl _ hlt
  rw [List.orderedInsert_eq_take_drop, List.filter_append, hnil,
    List.filter_cons_of_pos (by simp [ha]), List.nil_append]
  congr 1
  conv_rhs =>
    rw [← List.takeWhile_append_dropWhile (p := fun b => ¬ scoreGE a b) (l := l)]
  rw [List.filter_append, hnil, List.nil_append]

theorem filter_orderedInsert_untied (v : ℚ) (a : RankedStock)
    (l : List RankedStock) (ha : a.activity_score ≠ v) :
    (List.orderedInsert scoreGE a l).filter (fun x => x.activity_score = v)
      = l.filter fun x => x.activity_score = v := by
  rw [List.orderedInsert_eq_take_drop, List.filter_append,
    List.filter_cons_of_neg (by simp [ha])]
  conv_rhs =>
    rw [← List.takeWhile_append_dropWhile (p := fun b => ¬ scoreGE a b) (l := l)]
  rw [List.filter_append]

theorem insertionSort_stable_filter (v : ℚ) :
    ∀ l : List RankedStock,
      (List.insertionSort scoreGE l).filter (fun x => x.activity_score = v)
        = l.filter fun x => x.activity_score = v
  | [] => rfl
  | a :: l => by
      rw [List.insertionSort]
      by_cases ha : a.activity_score = v
      · rw [filter_orderedInsert_tied v a _ ha, insertionSort_stable_filter v l,
          List.filter_cons_of_pos (by simp [ha])]
      · rw [filter_orderedInsert_untied v a _ ha, insertionSort_stable_filter v l,
          List.filter_cons_of_neg (by simp [ha])]

/-- Claim C2: for `count > 0` the ranker's output has length
min(count, candidates), is sorted by activity score descending, and is the
`count`-prefix of a stable descending permutation of the input: candidates
with equal score keep their arrival order. -/
theorem C2_ranker_stable (count : ℕ) (l : List RankedStock) (hc : 0 < count) :
    (rank_stocks count l).length = min count l.length ∧
    List.Sorted scoreGE (rank_stocks count l) ∧
    ∃ S : List RankedStock, S.Perm l ∧ List.Sorted scoreGE S ∧
      (∀ v : ℚ, S.filter (fun x => x.activity_score = v)
        = l.filter fun x => x.activity_score = v) ∧
      rank_stocks count l = S.take count := by
  refine ⟨?_, ?_, List.insertionSort scoreGE l, List.perm_insertionSort _ _,
    List.sorted_insertionSort _ _, fun v => insertionSort_stable_filter v l, rfl⟩
  · rw [rank_stocks, List.length_take, List.length_insertionSort]
  · exact List.Pairwise.sublist (List.take_sublist count _)
      (List.sorted_insertionSort scoreGE l)

/-- Witness for C2: the spec's end-to-end example, scores 50.2, 75, 75 and
count 2. -/
theorem C2_ranker_stable_witness :
    (rank_stocks 2 demoStocks).length = min 2 demoStocks.length ∧
    List.Sorted scoreGE (rank_stocks 2 demoStocks) ∧
    ∃ S : List RankedStock, S.Perm demoStocks ∧ List.Sorted scoreGE S ∧
      (∀ v : ℚ, S.filter (fun x => x.activity_score = v)
        = demoStocks.filter fun x => x.activity_score = v) ∧
      rank_stocks 2 demoStocks = S.take 2 :=
  C2_ranker_stable 2 demoStocks (by decide)

instance : IsTotal String (fun a b : String => b ≤ a) :=
  ⟨fun a b => le_total b a⟩

instance : IsTrans String (fun a b : String => b ≤ a) :=
  ⟨fun _ _ _ h h2 => le_trans h2 h⟩

theorem tsLookup_eq_some_of_mem :
    ∀ (ts : List (String × RawBar)) (d : String) (rb : RawBar),
      (ts.map Prod.fst).Nodup → (d, rb) ∈ ts → tsLookup d ts = some rb
  | [], d, rb, _, h => by cases h
  | kv :: rest, d, rb, hnd, h => by
      rw [tsLookup]
      rcases List.mem_cons.mp h with h1 | h1
      · subst h1
        simp
      · have hne : kv.1 ≠ d := by
          intro he
          have hmem : d ∈ rest.map Prod.fst :=
            List.mem_map.mpr ⟨(d, rb), h1, rfl⟩
          rw [List.map_cons] at hnd
          exact (List.nodup_cons.mp hnd).1 (he ▸ hmem)
        rw [if_neg hne]
        exact tsLookup_eq_some_of_mem rest d rb
          (by rw [List.map_cons] at hnd; exact (List.nodup_cons.mp hnd).2) h1

theorem mem_of_tsLookup_eq_some :
    ∀ (ts : List (String × RawBar)) (d : String) (rb : RawBar),
      tsLookup d ts = some rb → (d, rb) ∈ ts
  | [], _, _, h => by cases h
  | kv :: rest, d, rb, h => by
      rw [tsLookup] at h
      by_cases he : kv.1 = d
      · rw [if_pos he] at h
        injection h with h2
        have hkv : kv = (d, rb) := by
          cases kv
          simp_all
        exact hkv ▸ List.mem_cons_self kv rest
      · rw [if_neg he] at h
        exact List.mem_cons_of_mem _ (mem_of_tsLookup_eq_some rest d rb h)

/-- Claim C3: the trading-day resolver returns the target date's own bar
when present; otherwise the bar of the maximum available date ≤ the target
(lexicographic string comparison), and fails when no available date is ≤
the target. -/
theorem C3_trading_day_resolver (target : String) (ts : List (String × RawBar))
    (hnd : (ts.map Prod.fst).Nodup) :
    (∀ rb : RawBar, (target, rb) ∈ ts →
      resolve_trading_day target ts = some (target, rb)) ∧
    (∀ (d : String) (rb : RawBar), tsLookup target ts = none →
      (d, rb) ∈ ts → d ≤ target →
      (∀ (e : String) (rb2 : RawBar), (e, rb2) ∈ ts → e ≤ target → e ≤ d) →
      resolve_trading_day target ts = some (d, rb)) ∧
    ((∀ (e : String) (rb2 : RawBar), (e, rb2) ∈ ts → ¬ e ≤ target) →
      resolve_trading_day target ts = none) := by
  refine ⟨?_, ?_, ?_⟩
  · intro rb hmem
    unfold resolve_trading_day
    rw [tsLookup_eq_some_of_mem ts target rb hnd hmem]
  · intro d rb hlk hmem hdle hmax
    unfold resolve_trading_day
    rw [hlk]
    have hdL : d ∈ (ts.map Prod.fst).filter fun x => x ≤ target :=
      List.mem_filter.mpr ⟨List.mem_map.mpr ⟨(d, rb), hmem, rfl⟩, by simpa using hdle⟩
    have hdS : d ∈ List.insertionSort (fun a b : String => b ≤ a)
        ((ts.map Prod.fst).filter fun x => x ≤ target) :=
      (List.mem_insertionSort _).mpr hdL
    cases hS : List.insertionSort (fun a b : String => b ≤ a)
        ((ts.map Prod.fst).filter fun x => x ≤ target) with
    | nil => rw [hS] at hdS; cases hdS
    | cons h0 t0 =>
        have hsorted := List.sorted_insertionSort (fun a b : String => b ≤ a)
          ((ts.map Prod.fst).filter fun x => x ≤ target)
        rw [hS] at hsorted hdS
        have hh0L : h0 ∈ (ts.map Prod.fst).filter fun x => x ≤ target := by
          have : h0 ∈ List.insertionSort (fun a b : String => b ≤ a)
              ((ts.map Prod.fst).filter fun x => x ≤ target) := by
            rw [hS]; exact List.mem_cons_self h0 t0
          exact (List.mem_insertionSort _).mp this
        obtain ⟨hh0m, hh0le⟩ := List.mem_filter.mp hh0L
        obtain ⟨kv, hkv, hkv1⟩ := List.mem_map.mp hh0m
        have hh0d : h0 ≤ d := by
          refine hmax h0 kv.2 ?_ (by simpa using hh0le)
          have : kv = (h0, kv.2) := by
            cases kv
            simp_all
          exact this ▸ hkv
        have hdh0 : d ≤ h0 := by
          rcases List.mem_cons.mp hdS with h1 | h1
          · exact le_of_eq h1
          · exact List.rel_of_sorted_cons hsorted d h1
        have hd0 : h0 = d := le_antisymm hh0d hdh0
        simp only [hS]
        rw [hd0, tsLookup_eq_some_of_mem ts d rb hnd hmem]
        rfl
  · intro hno
    have hlk : tsLookup target ts = none := by
      cases h : tsLookup target ts with
      | none => rfl
      | some rb =>
          exact absurd (le_refl target)
            (hno target rb (mem_of_tsLookup_eq_some ts target rb h))
    unfold resolve_trading_day
    rw [hlk]
    have hfil : ((ts.map Prod.fst).filter fun x => x ≤ target) = [] := by
      rw [List.filter_eq_nil_iff]
      intro x hx
      obtain ⟨kv, hkv, hkv1⟩ := List.mem_map.mp hx
      have : kv = (x, kv.2) := by
        cases kv
        simp_all
      simpa using hno x kv.2 (this ▸ hkv)
    simp only [hfil, List.insertionSort]

/-- Witness for C3: the spec's example series resolves 2024-01-13 to
2024-01-12, resolves 2024-01-11 exactly, and fails for 2024-01-09. -/
theorem C3_trading_day_resolver_witness :
    resolve_trading_day "2024-01-13" wSeries = some ("2024-01-12", rbNone) ∧
    resolve_trading_day "2024-01-11" wSeries = some ("2024-01-11", rbNone) ∧
    resolve_trading_day "2024-01-09" wSeries = none := by
  refine ⟨(C3_trading_day_resolver "2024-01-13" wSeries (by decide)).2.1
      "2024-01-12" rbNone (by decide) (by decide)
      (by simp only [String.le_iff_toList_le]; decide) ?_,
    (C3_trading_day_resolver "2024-01-11" wSeries (by decide)).1 rbNone
      (by decide),
    (C3_trading_day_resolver "2024-01-09" wSeries (by decide)).2.2 ?_⟩
  · intro e rb2 hm hle
    simp only [wSeries, List.mem_cons, List.not_mem_nil, or_false,
      Prod.mk.injEq] at hm
    rcases hm with ⟨he, _⟩ | ⟨he, _⟩ | ⟨he, _⟩ <;> subst he <;>
      simp only [String.le_iff_toList_le] <;> decide
  · intro e rb2 hm
    simp only [wSeries, List.mem_cons, List.not_mem_nil, or_false,
      Prod.mk.injEq] at hm
    rcases hm with ⟨he, _⟩ | ⟨he, _⟩ | ⟨he, _⟩ <;> subst he <;>
      simp only [String.le_iff_toList_le] <;> decide

theorem resolve_date_le (target : String) (ts : List (String × RawBar))
    (d : String) (rb : RawBar)
    (h : resolve_trading_day target ts = some (d, rb)) : d ≤ target := by
  unfold resolve_trading_day at h
  cases hl : tsLookup target ts with
  | some bar =>
      rw [hl] at h
      simp only [Option.some.injEq, Prod.mk.injEq] at h
      exact h.1 ▸ le_refl target
  | none =>
      rw [hl] at h
      cases hS : List.insertionSort (fun a b : String => b ≤ a)
          ((ts.map Prod.fst).filter fun x => x ≤ target) with
      | nil => rw [hS] at h; cases h
      | cons h0 t0 =>
          rw [hS] at h
          dsimp only at h
          have hh0L : h0 ∈ (ts.map Prod.fst).filter fun x => x ≤ target := by
            have : h0 ∈ List.insertionSort (fun a b : String => b ≤ a)
                ((ts.map Prod.fst).filter fun x => x ≤ target) := by
              rw [hS]; exact List.mem_cons_self h0 t0
            exact (List.mem_insertionSort _).mp this
          have hh0le : h0 ≤ target := by
            simpa using (List.mem_filter.mp hh0L).2
          cases hlk : tsLookup h0 ts with
          | none => rw [hlk] at h; cases h
          | some rb0 =>
              rw [hlk] at h
              simp at h
              exact h.1 ▸ hh0le

theorem get_daily_data_date_le (symbol target : String) :
    ∀ (rs : List QuoteResponse) (b : Bar),
      (get_daily_data symbol target rs).2 = some b → b.date ≤ target
  | [], b, h => by simp [get_daily_data] at h
  | .transportError :: _, b, h => by simp [get_daily_data] at h
  | .errorMessage :: _, b, h => by simp [get_daily_data] at h
  | .note :: rest, b, h => by
      rw [get_daily_data] at h
      exact get_daily_data_date_le symbol target rest b h
  | .payload ts :: _, b, h => by
      by_cases he : ts.isEmpty
      · simp [get_daily_data, he] at h
      · simp only [get_daily_data, he, if_false, Bool.false_eq_true,
          Option.bind_eq_some] at h
        obtain ⟨⟨d, rb⟩, hres, hparse⟩ := h
        have hdle := resolve_date_le target ts d rb hres
        unfold parse_bar at hparse
        rcases rb with ⟨ro, rh, rl, rc, rv⟩
        cases ro <;> cases rh <;> cases rl <;> cases rc <;> cases rv <;>
          dsimp only at hparse <;>
          first
            | exact Option.noConfusion hparse
            | (injection hparse with h2; subst h2; exact hdle)

theorem mem_process_symbols_date_le (env : String → List QuoteResponse)
    (target : String) :
    ∀ (stocks : List StockRow) (eb : EnrichedBar),
      eb ∈ (process_symbols env target stocks).2 → eb.bar.date ≤ target := by
  intro stocks
  induction stocks with
  | nil => intro eb h; simp [process_symbols] at h
  | cons s rest ih =>
      intro eb h
      cases hgd : (get_daily_data s.symbol target (env s.symbol)).2 with
      | none =>
          simp [process_symbols, hgd] at h
          exact ih eb h
      | some b =>
          by_cases hv : 0 < b.vol
          · simp [process_symbols, hgd, hv] at h
            rcases h with h | h
            · subst h
              exact get_daily_data_date_le s.symbol target (env s.symbol) b hgd
            · exact ih eb h
          · simp [process_symbols, hgd, hv] at h
            exact ih eb h

/-- Claim C10: every bar returned by the batch fetcher, and every stock in
the final ranked output, carries a date ≤ the requested target date under
string comparison. -/
theorem C10_date_never_future :
    (∀ (env : String → List QuoteResponse) (target : String)
        (stocks : List StockRow) (bs : ℕ),
      ∀ eb ∈ (process_stocks_in_batches env target stocks bs).2,
        eb.bar.date ≤ target) ∧
    ∀ (listing : ListingResponse) (env : String → List QuoteResponse)
        (confirm : Bool) (target : String) (count : ℕ),
      ∀ rs ∈ get_most_active_stocks_for_date listing env confirm target count,
        rs.date ≤ target := by
  have hbatch : ∀ (env : String → List QuoteResponse) (target : String)
      (stocks : List StockRow) (bs : ℕ),
      ∀ eb ∈ (process_stocks_in_batches env target stocks bs).2,
        eb.bar.date ≤ target := by
    intro env target stocks bs eb h
    rw [batches_eq_symbols] at h
    exact mem_process_symbols_date_le env target stocks eb h
  refine ⟨hbatch, ?_⟩
  intro listing env confirm target count rs hrs
  simp only [get_most_active_stocks_for_date] at hrs
  split_ifs at hrs with hA hB hC
  · exact absurd hrs (List.not_mem_nil rs)
  · exact absurd hrs (List.not_mem_nil rs)
  · exact absurd hrs (List.not_mem_nil rs)
  · rw [rank_stocks] at hrs
    have hrs2 := List.take_subset count _ hrs
    have hrs3 := (List.mem_insertionSort _).mp hrs2
    obtain ⟨eb, hebmem, hrseq⟩ := List.mem_map.mp hrs3
    have hdate := hbatch env target
      (get_all_stocks_from_target_exchanges listing) 100 eb hebmem
    rw [← hrseq]
    simpa [enhance_stock] using hdate

/-- Witness for C10: on the concrete run, the fetched bar and the final
ranked stock both carry the requested date 2024-01-10. -/
theorem C10_date_never_future_witness :
    ebW.bar.date ≤ "2024-01-10" ∧ (enhance_stock ebW).date ≤ "2024-01-10" := by
  have hdata : (process_stocks_in_batches wEnv "2024-01-10" [wStock] 100).2
      = [ebW] := by
    rw [batches_eq_symbols]
    simp [process_symbols, get_daily_data, wEnv, wStock, resolve_trading_day,
      tsLookup, parse_bar, rbGood, ebW, wBar]
  have hlist : get_all_stocks_from_target_exchanges
      (ListingResponse.rows [wRow]) = [wStock] := by decide
  have hmem2 : enhance_stock ebW ∈ get_most_active_stocks_for_date
      (ListingResponse.rows [wRow]) wEnv true "2024-01-10" 1 := by
    unfold get_most_active_stocks_for_date
    simp only [hlist, hdata, rank_stocks, List.insertionSort,
      List.orderedInsert, List.map, List.isEmpty, Bool.not_true,
      Bool.false_eq_true, if_false, List.take]
    simp
  exact ⟨C10_date_never_future.1 wEnv "2024-01-10" [wStock] 100 ebW
      (by rw [hdata]; exact List.mem_singleton_self ebW),
    C10_date_never_future.2 (ListingResponse.rows [wRow]) wEnv true
      "2024-01-10" 1 (enhance_stock ebW) hmem2⟩

end MarketDashboard
